import Mathlib

/-!
Verification of the core client-side utilities of the waste-matching portal
frontend: record composition (`composePortalRecords`), object flattening
(`flatten`), column unification (`unionKeysWithPreferred`), CSV export
(`csvDownload`) and the generator/receiver graph construction of the Cycles
page (`buildGraph`).  JavaScript values are modelled by the inductive type
`JVal`; JavaScript objects are association lists in insertion order.
-/

namespace Portal

/-- A JavaScript value: `null`, `undefined`, a string, a number, a boolean,
an array, or a plain object (an association list of fields in insertion
order, keys unique). -/
inductive JVal where
  | jnull
  | undefined
  | str (s : String)
  | num (n : Int)
  | bool (b : Bool)
  | arr (elems : List JVal)
  | obj (fields : List (String × JVal))
deriving Repr

/-- Property lookup on an association-list object: the value of the first
field named `k`, if any. -/
def lookupAssoc {α : Type} : List (String × α) → String → Option α
  | [], _ => none
  | (k2, v) :: rest, k => if k2 = k then some v else lookupAssoc rest k

/-- JavaScript property assignment `o[k] = v` on an association-list object
(whose keys are unique): overwrite the value in place when the key is
present (keeping its original position), otherwise append the new field at
the end. -/
def setKey {α : Type} : List (String × α) → String → α → List (String × α)
  | [], k, v => [(k, v)]
  | (k2, w) :: rest, k, v =>
    if k2 = k then (k, v) :: rest else (k2, w) :: setKey rest k v

/-- `needle` occurs as a contiguous substring of `hay`
(JavaScript `hay.includes(needle)`). -/
def containsSubstr (needle hay : String) : Bool :=
  decide (needle.toList <:+: hay.toList)

/-- The two role labels of the portal, the TypeScript union
`"Waste Generator" | "Receiver"`. -/
inductive Role where
  | wasteGenerator
  | receiver
deriving Repr, DecidableEq

/-- The string literal carried by a role. -/
def roleText : Role → String
  | .wasteGenerator => "Waste Generator"
  | .receiver => "Receiver"

/-- A portal record: a COMMON section plus optional GENERATOR / RECEIVER
detail sections (from `types/portal.ts`). -/
structure PortalRecord where
  COMMON : List (String × JVal)
  GENERATOR : Option JVal
  RECEIVER : Option JVal
deriving Repr

/-- `composePortalRecords` from the wizard: emits a generator-tagged record
when the roles include "Waste Generator" and the generator detail is
non-null, then a receiver-tagged record when the roles include "Receiver"
and the receiver detail is non-null. -/
def composePortalRecords (common : List (String × JVal))
    (generator receiver : Option JVal) (roles : List Role) : List PortalRecord :=
  let base := common
  let genPart : List PortalRecord :=
    match generator with
    | some g =>
      if Role.wasteGenerator ∈ roles then
        [{ COMMON := setKey base "Factory Type" (.str "Waste Generator")
           GENERATOR := some g
           RECEIVER := none }]
      else []
    | none => []
  let recPart : List PortalRecord :=
    match receiver with
    | some r =>
      if Role.receiver ∈ roles then
        [{ COMMON := setKey base "Factory Type" (.str "Receiver")
           GENERATOR := none
           RECEIVER := some r }]
      else []
    | none => []
  genPart ++ recPart

lemma lookupAssoc_setKey_self {α : Type} (kvs : List (String × α)) (k : String) (v : α) :
    lookupAssoc (setKey kvs k v) k = some v := by
  induction kvs with
  | nil => simp [setKey, lookupAssoc]
  | cons p rest ih =>
    obtain ⟨k2, w⟩ := p
    by_cases h : k2 = k
    · simp [setKey, lookupAssoc, h]
    · simp [setKey, lookupAssoc, h, ih]

/-- The generator-tagged record emitted for `common` and detail `g`. -/
def generatorRecord (common : List (String × JVal)) (g : JVal) : PortalRecord :=
  { COMMON := setKey common "Factory Type" (.str "Waste Generator")
    GENERATOR := some g
    RECEIVER := none }

/-- The receiver-tagged record emitted for `common` and detail `r`. -/
def receiverRecord (common : List (String × JVal)) (r : JVal) : PortalRecord :=
  { COMMON := setKey common "Factory Type" (.str "Receiver")
    GENERATOR := none
    RECEIVER := some r }

lemma composePortalRecords_eq (common : List (String × JVal))
    (generator receiver : Option JVal) (roles : List Role) :
    composePortalRecords common generator receiver roles =
      (if Role.wasteGenerator ∈ roles ∧ generator.isSome = true then
        [{ COMMON := setKey common "Factory Type" (.str "Waste Generator")
           GENERATOR := generator
           RECEIVER := none }] else [])
      ++ (if Role.receiver ∈ roles ∧ receiver.isSome = true then
        [{ COMMON := setKey common "Factory Type" (.str "Receiver")
           GENERATOR := none
           RECEIVER := receiver }] else []) := by
  cases generator <;> cases receiver <;>
    by_cases hg : Role.wasteGenerator ∈ roles <;>
    by_cases hr : Role.receiver ∈ roles <;>
    simp [composePortalRecords, hg, hr]

lemma containsSubstr_generator (ρ : Role) :
    containsSubstr "Generator" (roleText ρ) = (ρ == Role.wasteGenerator) := by
  cases ρ <;> decide

lemma containsSubstr_receiver (ρ : Role) :
    containsSubstr "Receiver" (roleText ρ) = (ρ == Role.receiver) := by
  cases ρ <;> decide

lemma filter_beq_length_of_nodup (roles : List Role) (hnd : roles.Nodup) (ρ0 : Role) :
    (roles.filter fun ρ => ρ == ρ0).length = if ρ0 ∈ roles then 1 else 0 := by
  induction roles with
  | nil => simp
  | cons a rest ih =>
    obtain ⟨hnm, hrest⟩ := List.nodup_cons.mp hnd
    by_cases hae : a = ρ0
    · subst hae
      have hfil : (rest.filter fun ρ => ρ == a) = [] := by
        rw [List.filter_eq_nil_iff]
        intro x hx
        simp only [beq_iff_eq]
        intro he
        exact hnm (he ▸ hx)
      simp [List.filter_cons, hfil]
    · have hne : ¬ ρ0 = a := fun h => hae h.symm
      by_cases hm : ρ0 ∈ rest <;>
        simp [List.filter_cons, hae, hm, hne, ih hrest, List.mem_cons]

/-- C1: `composePortalRecords` returns exactly the generator-tagged record
(when "Waste Generator" is among the roles and the generator detail is
non-null) followed by the receiver-tagged record (when "Receiver" is among
the roles and the receiver detail is non-null); with duplicate-free roles
and both details non-null the number of records equals the number of roles
whose text contains "Generator" plus the number whose text contains
"Receiver", and every emitted record carries exactly one detail section
with COMMON["Factory Type"] equal to the matching role label. -/
theorem composePortalRecords_spec (common : List (String × JVal))
    (generator receiver : Option JVal) (roles : List Role) :
    composePortalRecords common generator receiver roles =
      (if Role.wasteGenerator ∈ roles ∧ generator.isSome = true then
        [{ COMMON := setKey common "Factory Type" (.str "Waste Generator")
           GENERATOR := generator
           RECEIVER := none }] else [])
      ++ (if Role.receiver ∈ roles ∧ receiver.isSome = true then
        [{ COMMON := setKey common "Factory Type" (.str "Receiver")
           GENERATOR := none
           RECEIVER := receiver }] else [])
    ∧ (roles.Nodup → generator.isSome = true → receiver.isSome = true →
        (composePortalRecords common generator receiver roles).length =
          (roles.filter fun ρ => containsSubstr "Generator" (roleText ρ)).length +
          (roles.filter fun ρ => containsSubstr "Receiver" (roleText ρ)).length)
    ∧ (∀ pr ∈ composePortalRecords common generator receiver roles,
        (pr.GENERATOR.isSome = true ∧ pr.RECEIVER = none ∧
          lookupAssoc pr.COMMON "Factory Type" = some (.str "Waste Generator")) ∨
        (pr.GENERATOR = none ∧ pr.RECEIVER.isSome = true ∧
          lookupAssoc pr.COMMON "Factory Type" = some (.str "Receiver"))) := by
  refine ⟨composePortalRecords_eq common generator receiver roles, ?_, ?_⟩
  · intro hnd hg hr
    have e1 : (roles.filter fun ρ => containsSubstr "Generator" (roleText ρ)) =
        (roles.filter fun ρ => ρ == Role.wasteGenerator) :=
      List.filter_congr (fun ρ _ => containsSubstr_generator ρ)
    have e2 : (roles.filter fun ρ => containsSubstr "Receiver" (roleText ρ)) =
        (roles.filter fun ρ => ρ == Role.receiver) :=
      List.filter_congr (fun ρ _ => containsSubstr_receiver ρ)
    rw [composePortalRecords_eq, e1, e2, filter_beq_length_of_nodup roles hnd,
      filter_beq_length_of_nodup roles hnd]
    by_cases h1 : Role.wasteGenerator ∈ roles <;>
      by_cases h2 : Role.receiver ∈ roles <;>
      simp [h1, h2, hg, hr]
  · intro pr hpr
    rw [composePortalRecords_eq] at hpr
    rcases List.mem_append.mp hpr with h | h
    · rcases Classical.em (Role.wasteGenerator ∈ roles ∧ generator.isSome = true) with hc | hc
      · rw [if_pos hc] at h
        rcases List.mem_singleton.mp h with rfl
        left
        exact ⟨hc.2, rfl, lookupAssoc_setKey_self _ _ _⟩
      · rw [if_neg hc] at h
        cases h
    · rcases Classical.em (Role.receiver ∈ roles ∧ receiver.isSome = true) with hc | hc
      · rw [if_pos hc] at h
        rcases List.mem_singleton.mp h with rfl
        right
        exact ⟨rfl, hc.2, lookupAssoc_setKey_self _ _ _⟩
      · rw [if_neg hc] at h
        cases h

theorem composePortalRecords_spec_witness :
    (composePortalRecords [("n", JVal.str "F")] (some (.num 1)) (some (.num 2))
        [Role.wasteGenerator, Role.receiver]).length = 2 :=
  ((composePortalRecords_spec [("n", JVal.str "F")] (some (.num 1)) (some (.num 2))
      [Role.wasteGenerator, Role.receiver]).2.1
    (by decide) rfl rfl).trans (by decide)

/-- C7: `composePortalRecords` never signals an error: a null detail for a
role yields no record for that role, and with both details null the result
is the empty list. -/
theorem composePortalRecords_null_details (common : List (String × JVal))
    (generator receiver : Option JVal) (roles : List Role) :
    (generator = none →
      ∀ pr ∈ composePortalRecords common generator receiver roles, pr.GENERATOR = none)
    ∧ (receiver = none →
      ∀ pr ∈ composePortalRecords common generator receiver roles, pr.RECEIVER = none)
    ∧ composePortalRecords common none none roles = [] := by
  refine ⟨?_, ?_, ?_⟩
  · rintro rfl pr hpr
    rw [composePortalRecords_eq] at hpr
    by_cases hr : Role.receiver ∈ roles ∧ (receiver.isSome = true) <;>
      simp_all [hr]
  · rintro rfl pr hpr
    rw [composePortalRecords_eq] at hpr
    by_cases hg : Role.wasteGenerator ∈ roles ∧ (generator.isSome = true) <;>
      simp_all [hg]
  · rw [composePortalRecords_eq]
    simp

/-! ### Object flattening (`flatten` from the Match page) -/

mutual
/-- `flatten(obj, prefix, out)` from the Match page: null/undefined leave the
accumulator unchanged; arrays and non-object primitives are stored under the
current prefix (or the literal key "value" when the prefix is empty); for a
plain object each entry is stored under the dotted key, recursing when the
entry value is itself a plain (non-null, non-array) object. -/
def flattenVal : JVal → String → List (String × JVal) → List (String × JVal)
  | .jnull, _, out => out
  | .undefined, _, out => out
  | .str s, pre, out => setKey out (if pre = "" then "value" else pre) (.str s)
  | .num n, pre, out => setKey out (if pre = "" then "value" else pre) (.num n)
  | .bool b, pre, out => setKey out (if pre = "" then "value" else pre) (.bool b)
  | .arr xs, pre, out => setKey out (if pre = "" then "value" else pre) (.arr xs)
  | .obj kvs, pre, out => flattenEntries kvs pre out

/-- The `for (const [k, v] of Object.entries(obj))` loop of `flatten`: an
entry value that is a plain (non-null, non-array) object is recursed into
under the dotted key; every other entry value is stored directly. -/
def flattenEntries : List (String × JVal) → String → List (String × JVal) → List (String × JVal)
  | [], _, out => out
  | (k, .obj kvs2) :: rest, pre, out =>
    flattenEntries rest pre
      (flattenEntries kvs2 (if pre = "" then k else pre ++ "." ++ k) out)
  | (k, v) :: rest, pre, out =>
    flattenEntries rest pre (setKey out (if pre = "" then k else pre ++ "." ++ k) v)
end

/-- `flatten(obj)` with the default empty prefix and empty accumulator. -/
def flatten (v : JVal) : List (String × JVal) := flattenVal v "" []

/-- A plain JavaScript object (not an array, not null). -/
def isPlainObj : JVal → Bool
  | .obj _ => true
  | _ => false

lemma mem_setKey {α : Type} (out : List (String × α)) (k : String) (v : α)
    (p : String × α) (hp : p ∈ setKey out k v) : p ∈ out ∨ p = (k, v) := by
  induction out with
  | nil =>
    right
    simpa [setKey] using hp
  | cons q rest ih =>
    obtain ⟨k2, w⟩ := q
    by_cases h : k2 = k
    · simp only [setKey, if_pos h] at hp
      rcases List.mem_cons.mp hp with rfl | hmem
      · right; rfl
      · left; exact List.mem_cons_of_mem _ hmem
    · simp only [setKey, if_neg h] at hp
      rcases List.mem_cons.mp hp with rfl | hmem
      · left; exact List.mem_cons_self _ _
      · rcases ih hmem with hin | he
        · left; exact List.mem_cons_of_mem _ hin
        · right; exact he

mutual
theorem flattenVal_no_obj (v : JVal) (pre : String) (out : List (String × JVal))
    (h : ∀ p ∈ out, isPlainObj p.2 = false) :
    ∀ p ∈ flattenVal v pre out, isPlainObj p.2 = false := by
  cases v with
  | jnull => intro p hp; exact h p (by simpa [flattenVal] using hp)
  | undefined => intro p hp; exact h p (by simpa [flattenVal] using hp)
  | str s =>
    intro p hp
    rcases mem_setKey _ _ _ p (by simpa [flattenVal] using hp) with hin | rfl
    · exact h p hin
    · rfl
  | num n =>
    intro p hp
    rcases mem_setKey _ _ _ p (by simpa [flattenVal] using hp) with hin | rfl
    · exact h p hin
    · rfl
  | bool b =>
    intro p hp
    rcases mem_setKey _ _ _ p (by simpa [flattenVal] using hp) with hin | rfl
    · exact h p hin
    · rfl
  | arr xs =>
    intro p hp
    rcases mem_setKey _ _ _ p (by simpa [flattenVal] using hp) with hin | rfl
    · exact h p hin
    · rfl
  | obj kvs =>
    intro p hp
    exact flattenEntries_no_obj kvs pre out h p (by simpa [flattenVal] using hp)

theorem flattenEntries_no_obj (l : List (String × JVal)) (pre : String)
    (out : List (String × JVal)) (h : ∀ p ∈ out, isPlainObj p.2 = false) :
    ∀ p ∈ flattenEntries l pre out, isPlainObj p.2 = false := by
  match l with
  | [] => intro p hp; exact h p (by simpa [flattenEntries] using hp)
  | (k, JVal.obj kvs2) :: rest =>
    intro p hp
    refine flattenEntries_no_obj rest pre _
      (flattenEntries_no_obj kvs2 (if pre = "" then k else pre ++ "." ++ k) out h) p ?_
    simpa [flattenEntries] using hp
  | (k, JVal.jnull) :: rest =>
    intro p hp
    refine flattenEntries_no_obj rest pre _ ?_ p (by simpa [flattenEntries] using hp)
    intro q hq
    rcases mem_setKey _ _ _ q hq with hin | rfl
    · exact h q hin
    · rfl
  | (k, JVal.undefined) :: rest =>
    intro p hp
    refine flattenEntries_no_obj rest pre _ ?_ p (by simpa [flattenEntries] using hp)
    intro q hq
    rcases mem_setKey _ _ _ q hq with hin | rfl
    · exact h q hin
    · rfl
  | (k, JVal.str s) :: rest =>
    intro p hp
    refine flattenEntries_no_obj rest pre _ ?_ p (by simpa [flattenEntries] using hp)
    intro q hq
    rcases mem_setKey _ _ _ q hq with hin | rfl
    · exact h q hin
    · rfl
  | (k, JVal.num n) :: rest =>
    intro p hp
    refine flattenEntries_no_obj rest pre _ ?_ p (by simpa [flattenEntries] using hp)
    intro q hq
    rcases mem_setKey _ _ _ q hq with hin | rfl
    · exact h q hin
    · rfl
  | (k, JVal.bool b) :: rest =>
    intro p hp
    refine flattenEntries_no_obj rest pre _ ?_ p (by simpa [flattenEntries] using hp)
    intro q hq
    rcases mem_setKey _ _ _ q hq with hin | rfl
    · exact h q hin
    · rfl
  | (k, JVal.arr xs) :: rest =>
    intro p hp
    refine flattenEntries_no_obj rest pre _ ?_ p (by simpa [flattenEntries] using hp)
    intro q hq
    rcases mem_setKey _ _ _ q hq with hin | rfl
    · exact h q hin
    · rfl
end

/-! ### Column unification (`unionKeysWithPreferred` from the Match page) -/

/-- The keys contributed to the union by one row: `Object.keys(r)` when `r`
is a non-null value of JavaScript type "object" (a plain object, or an
array whose own keys are its index strings); other rows contribute
nothing. -/
def rowKeys : JVal → List String
  | .obj kvs => kvs.map Prod.fst
  | .arr xs => (List.range xs.length).map (fun i => toString i)
  | _ => []

/-- `Set.prototype.add`: append the key when absent, keeping the set in
insertion order. -/
def addKey (s : List String) (k : String) : List String :=
  if k ∈ s then s else s ++ [k]

/-- The insertion-ordered union of the keys of all object-typed rows. -/
def keysUnion (rows : List JVal) : List String :=
  rows.foldl (fun s r => (rowKeys r).foldl addKey s) []

/-- Lexicographic (code-point) comparison of character lists: the order
used by JavaScript string comparison and the default `Array.sort`. -/
def charListLe : List Char → List Char → Bool
  | [], _ => true
  | _ :: _, [] => false
  | a :: as, b :: bs => if a < b then true else if b < a then false else charListLe as bs

/-- Lexicographic `≤` on strings (JavaScript default sort order). -/
def strLe (a b : String) : Bool := charListLe a.data b.data

lemma charListLe_total : ∀ as bs : List Char,
    charListLe as bs = true ∨ charListLe bs as = true := by
  intro as
  induction as with
  | nil => intro bs; left; rfl
  | cons a as ih =>
    intro bs
    cases bs with
    | nil => right; rfl
    | cons b bs =>
      by_cases h1 : a < b
      · left; simp [charListLe, h1]
      · by_cases h2 : b < a
        · right; simp [charListLe, h2]
        · have hab : a = b := le_antisymm (le_of_not_lt h2) (le_of_not_lt h1)
          subst hab
          rcases ih bs with h | h
          · left; simpa [charListLe, h1] using h
          · right; simpa [charListLe, h1] using h

lemma charListLe_trans : ∀ as bs cs : List Char,
    charListLe as bs = true → charListLe bs cs = true → charListLe as cs = true := by
  intro as
  induction as with
  | nil => intro bs cs _ _; rfl
  | cons a as ih =>
    intro bs cs h1 h2
    cases bs with
    | nil => simp [charListLe] at h1
    | cons b bs =>
      cases cs with
      | nil => simp [charListLe] at h2
      | cons c cs =>
        by_cases hab : a < b
        · by_cases hbc : b < c
          · simp [charListLe, lt_trans hab hbc]
          · by_cases hcb : c < b
            · simp [charListLe, hbc, hcb] at h2
            · have hbc2 : b = c := le_antisymm (le_of_not_lt hcb) (le_of_not_lt hbc)
              subst hbc2
              simp [charListLe, hab]
        · by_cases hba : b < a
          · simp [charListLe, hab, hba] at h1
          · have hab2 : a = b := le_antisymm (le_of_not_lt hba) (le_of_not_lt hab)
            subst hab2
            simp only [charListLe, lt_irrefl, if_false] at h1
            by_cases hac : a < c
            · simp [charListLe, hac]
            · by_cases hca : c < a
              · simp [charListLe, hac, hca] at h2
              · have hac2 : a = c := le_antisymm (le_of_not_lt hca) (le_of_not_lt hac)
                subst hac2
                simp only [charListLe, lt_irrefl, if_false] at h2 ⊢
                exact ih bs cs h1 h2

instance strLe_isTotal : IsTotal String (fun a b => strLe a b = true) :=
  ⟨fun a b => charListLe_total a.data b.data⟩

instance strLe_isTrans : IsTrans String (fun a b => strLe a b = true) :=
  ⟨fun a b c => charListLe_trans a.data b.data c.data⟩

/-- `unionKeysWithPreferred(rows, preferred)` from the Match page: the
preferred keys present in the union, in the order given, followed by the
remaining union keys sorted ascending (default JavaScript sort order,
modelled by `strLe`). -/
def unionKeysWithPreferred (rows : List JVal) (preferred : List String) : List String :=
  let s := keysUnion rows
  let all := s
  let orderedPref := preferred.filter (fun k => decide (k ∈ s))
  let rest := List.insertionSort (fun a b => strLe a b = true)
    (all.filter (fun k => decide (k ∉ preferred)))
  orderedPref ++ rest

lemma mem_addKey (s : List String) (k a : String) : a ∈ addKey s k ↔ a ∈ s ∨ a = k := by
  by_cases h : k ∈ s
  · rw [addKey, if_pos h]
    exact ⟨.inl, fun hc => hc.elim id (fun he => he ▸ h)⟩
  · rw [addKey, if_neg h]
    simp

lemma nodup_addKey (s : List String) (k : String) (h : s.Nodup) : (addKey s k).Nodup := by
  by_cases hk : k ∈ s
  · rwa [addKey, if_pos hk]
  · rw [addKey, if_neg hk]
    exact List.Nodup.append h (List.nodup_singleton k)
      (fun a ha hb => hk ((List.mem_singleton.mp hb) ▸ ha))

lemma mem_foldl_addKey (keys : List String) (s : List String) (a : String) :
    a ∈ keys.foldl addKey s ↔ a ∈ s ∨ a ∈ keys := by
  induction keys generalizing s with
  | nil => simp
  | cons k rest ih =>
    rw [List.foldl_cons, ih, mem_addKey]
    simp [List.mem_cons]
    tauto

lemma nodup_foldl_addKey (keys s : List String) (h : s.Nodup) :
    (keys.foldl addKey s).Nodup := by
  induction keys generalizing s with
  | nil => simpa
  | cons k rest ih => exact ih _ (nodup_addKey _ _ h)

lemma mem_keysUnion (rows : List JVal) (a : String) :
    a ∈ keysUnion rows ↔ ∃ r ∈ rows, a ∈ rowKeys r := by
  suffices h : ∀ s, a ∈ rows.foldl (fun s r => (rowKeys r).foldl addKey s) s
      ↔ a ∈ s ∨ ∃ r ∈ rows, a ∈ rowKeys r by
    simpa [keysUnion] using h []
  intro s
  induction rows generalizing s with
  | nil => simp
  | cons r rest ih =>
    rw [List.foldl_cons, ih, mem_foldl_addKey]
    simp [List.mem_cons]
    tauto

lemma nodup_keysUnion (rows : List JVal) : (keysUnion rows).Nodup := by
  suffices h : ∀ s : List String, s.Nodup →
      (rows.foldl (fun s r => (rowKeys r).foldl addKey s) s).Nodup by
    simpa [keysUnion] using h [] List.nodup_nil
  intro s hs
  induction rows generalizing s with
  | nil => simpa
  | cons r rest ih => exact ih _ (nodup_foldl_addKey _ _ hs)

lemma count_filter_decide (l : List String) (p : String → Prop) [DecidablePred p] (k : String) :
    List.count k (l.filter fun x => decide (p x)) = if p k then List.count k l else 0 := by
  induction l with
  | nil => simp
  | cons a rest ih =>
    by_cases hp : p a
    · by_cases hak : a = k
      · subst hak
        simp [List.filter_cons, List.count_cons, hp, ih]
      · simp [List.filter_cons, List.count_cons, hp, hak, ih]
    · by_cases hak : a = k
      · subst hak
        simp [List.filter_cons, hp, ih]
      · simp [List.filter_cons, List.count_cons, hp, hak, ih]

/-- C5: the column list starts with the preferred keys that occur in some
object-typed row, in the given order, followed by the remaining union keys
in ascending lexical order; non-object rows contribute no keys. -/
theorem unionKeysWithPreferred_spec (rows : List JVal) (preferred : List String) :
    (∃ rest,
      unionKeysWithPreferred rows preferred
        = preferred.filter (fun k => rows.any (fun r => decide (k ∈ rowKeys r))) ++ rest
      ∧ List.Sorted (fun a b => strLe a b = true) rest
      ∧ ∀ k, k ∈ rest ↔ ((∃ r ∈ rows, k ∈ rowKeys r) ∧ k ∉ preferred))
    ∧ unionKeysWithPreferred
        [JVal.obj [("x", .num 1), ("y", .num 2)], JVal.obj [("y", .num 3), ("z", .num 4)]]
        ["z"] = ["z", "x", "y"] := by
  constructor
  · refine ⟨List.insertionSort (fun a b => strLe a b = true)
      ((keysUnion rows).filter (fun k => decide (k ∉ preferred))), ?_, ?_, ?_⟩
    · unfold unionKeysWithPreferred
      simp only []
      congr 1
      apply List.filter_congr
      intro k _
      rw [Bool.eq_iff_iff]
      simp [mem_keysUnion rows k, List.any_eq_true]
    · exact List.sorted_insertionSort _ _
    · intro k
      rw [(List.perm_insertionSort _ _).mem_iff]
      simp [List.mem_filter, mem_keysUnion]
  · decide

theorem unionKeysWithPreferred_spec_witness :
    unionKeysWithPreferred
      [JVal.obj [("x", .num 1), ("y", .num 2)], JVal.obj [("y", .num 3), ("z", .num 4)]]
      ["z"] = ["z", "x", "y"] :=
  (unionKeysWithPreferred_spec
    [JVal.obj [("x", .num 1), ("y", .num 2)], JVal.obj [("y", .num 3), ("z", .num 4)]]
    ["z"]).2

/-- C9: a union key appears in the output once when it is not preferred,
and as many times as it occurs in `preferred` otherwise; keys outside the
union do not appear. -/
theorem unionKeysWithPreferred_multiplicity (rows : List JVal) (preferred : List String)
    (k : String) :
    List.count k (unionKeysWithPreferred rows preferred)
      = if ∃ r ∈ rows, k ∈ rowKeys r then
          (if k ∈ preferred then List.count k preferred else 1)
        else 0 := by
  have hiff : (∃ r ∈ rows, k ∈ rowKeys r) ↔ k ∈ keysUnion rows :=
    (mem_keysUnion rows k).symm
  unfold unionKeysWithPreferred
  rw [List.count_append, count_filter_decide, (List.perm_insertionSort _ _).count_eq,
    count_filter_decide]
  by_cases h1 : k ∈ keysUnion rows
  · by_cases h2 : k ∈ preferred
    · simp [h1, h2, hiff]
    · have hc1 : List.count k (keysUnion rows) = 1 :=
        List.count_eq_one_of_mem (nodup_keysUnion rows) h1
      have hc0 : List.count k preferred = 0 := List.count_eq_zero_of_not_mem h2
      simp [h1, h2, hiff, hc1, hc0]
  · have hc0 : List.count k (keysUnion rows) = 0 := List.count_eq_zero_of_not_mem h1
    by_cases h2 : k ∈ preferred <;> simp [h1, h2, hiff, hc0]

/-- C4: `flatten` resolves nested plain objects into dotted-path keys,
preserves arrays as single unexpanded entries, and stores a top-level array
or primitive under the literal key "value". -/
theorem flatten_dotted_paths :
    flatten (.obj [("a", .obj [("b", .num 1), ("c", .obj [("d", .num 2)])])])
      = [("a.b", .num 1), ("a.c.d", .num 2)]
    ∧ flatten (.obj [("a", .arr [.num 1, .num 2, .num 3])])
      = [("a", .arr [.num 1, .num 2, .num 3])]
    ∧ (∀ xs : List JVal, flatten (.arr xs) = [("value", .arr xs)])
    ∧ (∀ s : String, flatten (.str s) = [("value", .str s)])
    ∧ (∀ n : Int, flatten (.num n) = [("value", .num n)])
    ∧ (∀ b : Bool, flatten (.bool b) = [("value", .bool b)]) := by
  refine ⟨?_, ?_, ?_, ?_, ?_, ?_⟩ <;>
    simp [flatten, flattenVal, flattenEntries, setKey]

/-- C6: no value of the mapping returned by `flatten` is a plain
(non-array, non-null) object: recursion fully resolves object nesting and
stops only at array boundaries. -/
theorem flatten_values_not_objects (v : JVal) :
    ∀ p ∈ flatten v, isPlainObj p.2 = false := fun p hp =>
  flattenVal_no_obj v "" [] (by simp) p hp

theorem flatten_values_not_objects_witness :
    isPlainObj (JVal.num 1) = false := by
  have h := flatten_values_not_objects (JVal.obj [("a", JVal.num 1)]) ("a", JVal.num 1)
    (by simp [flatten, flattenVal, flattenEntries, setKey])
  simpa using h

theorem composePortalRecords_null_details_witness :
    ({ COMMON := [("Factory Type", JVal.str "Receiver")]
       GENERATOR := none
       RECEIVER := some (JVal.num 1) : PortalRecord }).GENERATOR = none
    ∧ composePortalRecords [] none none [Role.wasteGenerator, Role.receiver] = [] :=
  ⟨(composePortalRecords_null_details [] none (some (.num 1))
      [Role.wasteGenerator, Role.receiver]).1 rfl _ (List.mem_singleton_self _),
   (composePortalRecords_null_details [] none none
      [Role.wasteGenerator, Role.receiver]).2.2⟩

/-! ### CSV export (`toCell` / `csvDownload` from the Match page) -/

/-- `isPrimitive` from the Match page: `v === null` or `typeof v` is one of
"string", "number", "boolean".  `undefined`, arrays and objects are not
primitive. -/
def isPrimitive : JVal → Bool
  | .jnull => true
  | .str _ => true
  | .num _ => true
  | .bool _ => true
  | _ => false

/-- Lower-case hexadecimal digit for `n < 16`. -/
def hexDigit (n : Nat) : Char :=
  if n < 10 then Char.ofNat (48 + n) else Char.ofNat (87 + n)

/-- JSON string escaping for one character. -/
def escapeJsonChar (c : Char) : String :=
  if c = '"' then "\\\""
  else if c = '\\' then "\\\\"
  else if c = '\n' then "\\n"
  else if c = '\r' then "\\r"
  else if c = '\t' then "\\t"
  else if c = '\x08' then "\\b"
  else if c = '\x0c' then "\\f"
  else if c.toNat < 32 then
    "\\u00" ++ String.mk [hexDigit (c.toNat / 16), hexDigit (c.toNat % 16)]
  else String.mk [c]

/-- A JSON string literal for `s`. -/
def jsonEscape (s : String) : String :=
  "\"" ++ String.join (s.data.map escapeJsonChar) ++ "\""

mutual
/-- `JSON.stringify` (no spacing): `none` models JavaScript's `undefined`
result on an `undefined` input; inside arrays `undefined` serializes as
`null`, and object entries with `undefined` values are dropped. -/
def jsonStringify : JVal → Option String
  | .undefined => none
  | .jnull => some "null"
  | .bool b => some (if b then "true" else "false")
  | .num n => some (toString n)
  | .str s => some (jsonEscape s)
  | .arr xs => some ("[" ++ String.intercalate "," (jsonArrayElems xs) ++ "]")
  | .obj kvs => some ("\x7b" ++ String.intercalate "," (jsonObjElems kvs) ++ "\x7d")

/-- Serialized elements of a JSON array. -/
def jsonArrayElems : List JVal → List String
  | [] => []
  | x :: xs => (jsonStringify x).getD "null" :: jsonArrayElems xs

/-- Serialized `key:value` entries of a JSON object (undefined-valued
entries dropped). -/
def jsonObjElems : List (String × JVal) → List String
  | [] => []
  | (_, .undefined) :: rest => jsonObjElems rest
  | (k, v) :: rest =>
    (jsonEscape k ++ ":" ++ (jsonStringify v).getD "null") :: jsonObjElems rest
end

/-- `toCell` from the Match page: a primitive passes through unchanged,
anything else is replaced by its `JSON.stringify` serialization (which is
itself `undefined` on an `undefined` input). -/
def toCell (v : JVal) : JVal :=
  if isPrimitive v then v
  else match jsonStringify v with
    | some s => .str s
    | none => .undefined

mutual
/-- JavaScript `String(v)` conversion. -/
def jsString : JVal → String
  | .jnull => "null"
  | .undefined => "undefined"
  | .str s => s
  | .num n => toString n
  | .bool b => if b then "true" else "false"
  | .arr xs => String.intercalate "," (jsStringElems xs)
  | .obj _ => "[object Object]"

/-- Elements of `Array.prototype.toString`: `null` and `undefined` render
as empty strings inside an array. -/
def jsStringElems : List JVal → List String
  | [] => []
  | .jnull :: xs => "" :: jsStringElems xs
  | .undefined :: xs => "" :: jsStringElems xs
  | x :: xs => jsString x :: jsStringElems xs
end

/-- `cell ?? ""`: nullish coalescing to the empty string. -/
def coalesceEmpty : JVal → JVal
  | .jnull => .str ""
  | .undefined => .str ""
  | v => v

/-- `s.replace(/"/g, '""')`: double every double-quote character of `s`. -/
def doubleQuotes (s : String) : String :=
  String.join (s.data.map (fun c => if c = '"' then "\"\"" else String.mk [c]))

/-- The CSV quoting step of `csvDownload`: the stringified cell is wrapped
in double quotes with embedded double quotes doubled exactly when it
contains a comma, a double quote, or a newline. -/
def csvEscapeCell (s : String) : String :=
  if s.data.any (fun c => c == '"' || c == ',' || c == '\n') then
    "\"" ++ doubleQuotes s ++ "\""
  else s

/-- One fully rendered CSV cell: `String(cell ?? "")` then quoting. -/
def emitCell (cell : JVal) : String := csvEscapeCell (jsString (coalesceEmpty cell))

/-- JavaScript optional-chained property access `r?.[h]`: a field lookup on
an object (absent fields read as `undefined`), a canonical index lookup on
an array; on the other bases the page never reads a property, and the
access is modelled as `undefined`. -/
def getField : JVal → String → JVal
  | .obj kvs, h => (lookupAssoc kvs h).getD .undefined
  | .arr xs, h =>
    (match h.toNat? with
     | some i => if h = toString i then xs.getD i .undefined else .undefined
     | none => .undefined)
  | _, _ => .undefined

/-- `csvDownload(rows, headers)` from the Match page, modelled as the CSV
text handed to the download blob: `none` when `rows` is empty (the early
return: nothing produced, no download), otherwise the header line followed
by one line per row, cells rendered by `toCell` and the quoting rule. -/
def csvDownload (rows : List JVal) (headers : List String) : Option String :=
  if rows.length = 0 then none
  else
    let outRows := rows.map (fun r => headers.map (fun h => toCell (getField r h)))
    some (String.intercalate "\n"
      (((headers.map JVal.str) :: outRows).map
        (fun row => String.intercalate "," (row.map emitCell))))

/-- C3: a cell is quoted (with embedded quotes doubled) iff its
stringification contains a comma, a double quote or a newline, otherwise it
is emitted verbatim; `csvDownload` on rows `[{a:"x,y", b:1}]` with headers
`["a","b"]` yields the header line `a,b` followed by `"x,y",1`. -/
theorem csvDownload_escaping (s : String) :
    ((',' ∈ s.data ∨ '"' ∈ s.data ∨ '\n' ∈ s.data) →
      csvEscapeCell s = "\"" ++ doubleQuotes s ++ "\"")
    ∧ ((',' ∉ s.data ∧ '"' ∉ s.data ∧ '\n' ∉ s.data) → csvEscapeCell s = s)
    ∧ csvDownload [JVal.obj [("a", .str "x,y"), ("b", .num 1)]] ["a", "b"]
        = some ("a,b\n\"x,y\",1") := by
  have hany : (s.data.any (fun c => c == '"' || c == ',' || c == '\n') = true)
      ↔ (',' ∈ s.data ∨ '"' ∈ s.data ∨ '\n' ∈ s.data) := by
    rw [List.any_eq_true]
    constructor
    · rintro ⟨c, hc, hor⟩
      rcases Bool.or_eq_true_iff.mp hor with h | h
      · rcases Bool.or_eq_true_iff.mp h with h2 | h2
        · right; left; exact (beq_iff_eq.mp h2) ▸ hc
        · left; exact (beq_iff_eq.mp h2) ▸ hc
      · right; right; exact (beq_iff_eq.mp h) ▸ hc
    · rintro (h | h | h)
      · exact ⟨',', h, by simp⟩
      · exact ⟨'"', h, by simp⟩
      · exact ⟨'\n', h, by simp⟩
  refine ⟨?_, ?_, ?_⟩
  · intro h
    rw [csvEscapeCell, if_pos (hany.mpr h)]
  · intro h
    rw [csvEscapeCell, if_neg ?_]
    rw [hany]
    tauto
  · decide

theorem csvDownload_escaping_witness :
    csvEscapeCell "x,y" = "\"x,y\"" :=
  ((csvDownload_escaping "x,y").1 (Or.inl (by decide))).trans (by decide)

/-- C8: with an empty rows list `csvDownload` is a no-op: no CSV text is
produced and no download is triggered, whatever the headers. -/
theorem csvDownload_empty_rows (headers : List String) :
    csvDownload [] headers = none := rfl

/-- C10: a header at which the row has no value (key absent, or bound to
`undefined`) renders as the empty-string cell, the same rendering a `null`
value receives; the lookup is total, so no error is raised. -/
theorem csvDownload_missing_cell (kvs : List (String × JVal)) (h : String)
    (hmiss : lookupAssoc kvs h = none ∨ lookupAssoc kvs h = some .undefined) :
    emitCell (toCell (getField (JVal.obj kvs) h)) = ""
    ∧ emitCell (toCell JVal.jnull) = "" := by
  constructor
  · rcases hmiss with hm | hm <;> simp [getField, hm] <;> rfl
  · rfl

theorem csvDownload_missing_cell_witness :
    emitCell (toCell (getField (JVal.obj [("b", JVal.num 1)]) "a")) = ""
    ∧ emitCell (toCell JVal.jnull) = "" :=
  csvDownload_missing_cell [("b", JVal.num 1)] "a" (Or.inl rfl)

/-! ### Generator/receiver graph construction (Cycles page) -/

/-- One row of the backend's `materials_full` projection, as read by the
Cycles page.  Absent / null string fields are `none`. -/
structure MaterialsRow where
  factory_id : Int
  factory_name : Option String
  role : Option String
  waste_type_name : Option String
  raw_material_name : Option String
deriving Repr, DecidableEq

/-- `norm` from the Cycles page: a falsy input (null, undefined or the
empty string) yields `""`; otherwise trim then lower-case, modelled on the
character list (ASCII whitespace and ASCII case folding, as in Lean
core). -/
def norm : Option String → String
  | none => ""
  | some s =>
    if s = "" then ""
    else String.mk ((((s.data.dropWhile Char.isWhitespace).reverse.dropWhile
      Char.isWhitespace).reverse).map Char.toLower)

/-- The display label of a row: `factory_name || `Factory#${factory_id}``
(the fallback is used when the name is null, undefined or empty). -/
def labelOf (m : MaterialsRow) : String :=
  match m.factory_name with
  | some s => if s = "" then "Factory#" ++ toString m.factory_id else s
  | none => "Factory#" ++ toString m.factory_id

/-- The generator-side filter: normalized role text contains "generator"
and the normalized waste-type name is non-empty. -/
def isGeneratorRow (m : MaterialsRow) : Bool :=
  containsSubstr "generator" (norm m.role) && (norm m.waste_type_name != "")

/-- The receiver-side filter: normalized role text contains "receiver" and
the normalized raw-material name is non-empty. -/
def isReceiverRow (m : MaterialsRow) : Bool :=
  containsSubstr "receiver" (norm m.role) && (norm m.raw_material_name != "")

/-- The `gens` list of the Cycles page. -/
def materialsGens (ms : List MaterialsRow) : List MaterialsRow :=
  ms.filter isGeneratorRow

/-- The `recs` list of the Cycles page. -/
def materialsRecs (ms : List MaterialsRow) : List MaterialsRow :=
  ms.filter isReceiverRow

/-- Adding the directed edge `gName → rName` to the adjacency object:
create the (empty) neighbor array when the key is absent, then push the
neighbor unless already present. -/
def addEdge (graph : List (String × List String)) (gName rName : String) :
    List (String × List String) :=
  match lookupAssoc graph gName with
  | none => setKey graph gName [rName]
  | some ns => if rName ∈ ns then graph else setKey graph gName (ns ++ [rName])

/-- The body of the inner `for (const r of recs)` loop for a fixed
generator row `g`: skip on material mismatch, skip self-loops by display
label, otherwise add the edge. -/
def stepRec (g : MaterialsRow) (graph : List (String × List String)) (r : MaterialsRow) :
    List (String × List String) :=
  if norm g.waste_type_name = norm r.raw_material_name then
    (if labelOf g = labelOf r then graph else addEdge graph (labelOf g) (labelOf r))
  else graph

/-- The body of the outer `for (const g of gens)` loop. -/
def stepGen (recs : List MaterialsRow) (graph : List (String × List String))
    (g : MaterialsRow) : List (String × List String) :=
  recs.foldl (stepRec g) graph

/-- The graph-construction step of `fetchMaterialsAndCycles`: the directed
adjacency list generator-label → receiver-labels built from the materials
rows. -/
def buildGraph (materials : List MaterialsRow) : List (String × List String) :=
  (materialsGens materials).foldl (stepGen (materialsRecs materials)) []

/-- The edge `g → r` is present in the adjacency list. -/
def edgeMem (graph : List (String × List String)) (g r : String) : Prop :=
  ∃ ns, lookupAssoc graph g = some ns ∧ r ∈ ns

lemma lookupAssoc_setKey_ne {α : Type} (kvs : List (String × α)) (k g : String) (v : α)
    (h : g ≠ k) : lookupAssoc (setKey kvs k v) g = lookupAssoc kvs g := by
  induction kvs with
  | nil =>
    have hne : ¬ k = g := fun he => h he.symm
    simp [setKey, lookupAssoc, hne]
  | cons p rest ih =>
    obtain ⟨k2, w⟩ := p
    by_cases h2 : k2 = k
    · subst h2
      have hne : ¬ k2 = g := fun he => h he.symm
      simp [setKey, lookupAssoc, hne]
    · simp [setKey, lookupAssoc, h2, ih]

lemma lookupAssoc_mem {α : Type} (kvs : List (String × α)) (k : String) (v : α)
    (h : lookupAssoc kvs k = some v) : (k, v) ∈ kvs := by
  induction kvs with
  | nil => simp [lookupAssoc] at h
  | cons p rest ih =>
    obtain ⟨k2, w⟩ := p
    by_cases h2 : k2 = k
    · subst h2
      rw [lookupAssoc, if_pos rfl] at h
      obtain rfl := Option.some_injective _ h
      exact List.mem_cons_self _ _
    · rw [lookupAssoc, if_neg h2] at h
      exact List.mem_cons_of_mem _ (ih h)

lemma edgeMem_addEdge (graph : List (String × List String)) (g r G R : String) :
    edgeMem (addEdge graph g r) G R ↔ edgeMem graph G R ∨ (G = g ∧ R = r) := by
  by_cases hG : G = g
  · subst hG
    cases hl : lookupAssoc graph G with
    | none =>
      simp only [addEdge, hl]
      unfold edgeMem
      rw [lookupAssoc_setKey_self]
      simp [hl]
    | some ns =>
      by_cases hr : r ∈ ns
      · simp only [addEdge, hl, if_pos hr]
        unfold edgeMem
        constructor
        · exact .inl
        · rintro (he | hc)
          · exact he
          · refine ⟨ns, hl, ?_⟩
            rw [hc.2]
            exact hr
      · simp only [addEdge, hl, if_neg hr]
        unfold edgeMem
        rw [lookupAssoc_setKey_self]
        constructor
        · rintro ⟨ns2, hns2, hR⟩
          obtain rfl : ns ++ [r] = ns2 := Option.some_injective _ hns2
          rcases List.mem_append.mp hR with h | h
          · exact .inl ⟨ns, hl, h⟩
          · exact .inr ⟨by trivial, List.mem_singleton.mp h⟩
        · rintro (⟨ns2, hns2, hR⟩ | hc)
          · refine ⟨ns ++ [r], rfl, ?_⟩
            rw [hl] at hns2
            obtain rfl : ns = ns2 := Option.some_injective _ hns2
            exact List.mem_append_left _ hR
          · refine ⟨ns ++ [r], rfl, ?_⟩
            rw [hc.2]
            exact List.mem_append_right _ (List.mem_singleton_self r)
  · have hunch : lookupAssoc (addEdge graph g r) G = lookupAssoc graph G := by
      cases hl : lookupAssoc graph g with
      | none =>
        simp only [addEdge, hl]
        exact lookupAssoc_setKey_ne _ _ _ _ hG
      | some ns =>
        by_cases hr : r ∈ ns
        · simp only [addEdge, hl, if_pos hr]
        · simp only [addEdge, hl, if_neg hr]
          exact lookupAssoc_setKey_ne _ _ _ _ hG
    unfold edgeMem
    rw [hunch]
    simp [hG]

lemma edgeMem_foldl_stepRec (g : MaterialsRow) (recs : List MaterialsRow)
    (graph : List (String × List String)) (G R : String) :
    edgeMem (recs.foldl (stepRec g) graph) G R ↔
      edgeMem graph G R ∨ ∃ r ∈ recs,
        norm g.waste_type_name = norm r.raw_material_name ∧
        labelOf g ≠ labelOf r ∧ G = labelOf g ∧ R = labelOf r := by
  induction recs generalizing graph with
  | nil => simp
  | cons r rest ih =>
    rw [List.foldl_cons, ih]
    by_cases h1 : norm g.waste_type_name = norm r.raw_material_name
    · by_cases h2 : labelOf g = labelOf r
      · rw [stepRec, if_pos h1, if_pos h2]
        simp [h1, h2]
      · rw [stepRec, if_pos h1, if_neg h2, edgeMem_addEdge]
        simp only [List.mem_cons]
        constructor
        · rintro ((he | ⟨rfl, rfl⟩) | ⟨r2, hr2, hc⟩)
          · exact .inl he
          · exact .inr ⟨r, .inl rfl, h1, h2, rfl, rfl⟩
          · exact .inr ⟨r2, .inr hr2, hc⟩
        · rintro (he | ⟨r2, (rfl | hr2), hc⟩)
          · exact .inl (.inl he)
          · exact .inl (.inr ⟨hc.2.2.1, hc.2.2.2⟩)
          · exact .inr ⟨r2, hr2, hc⟩
    · rw [stepRec, if_neg h1]
      simp only [List.mem_cons]
      constructor
      · rintro (he | ⟨r2, hr2, hc⟩)
        · exact .inl he
        · exact .inr ⟨r2, .inr hr2, hc⟩
      · rintro (he | ⟨r2, (rfl | hr2), hc⟩)
        · exact .inl he
        · exact absurd hc.1 h1
        · exact .inr ⟨r2, hr2, hc⟩

lemma edgeMem_foldl_stepGen (gens recs : List MaterialsRow)
    (graph : List (String × List String)) (G R : String) :
    edgeMem (gens.foldl (stepGen recs) graph) G R ↔
      edgeMem graph G R ∨ ∃ g ∈ gens, ∃ r ∈ recs,
        norm g.waste_type_name = norm r.raw_material_name ∧
        labelOf g ≠ labelOf r ∧ G = labelOf g ∧ R = labelOf r := by
  induction gens generalizing graph with
  | nil => simp
  | cons g grest ih =>
    rw [List.foldl_cons, ih]
    unfold stepGen
    rw [edgeMem_foldl_stepRec]
    simp only [List.mem_cons]
    constructor
    · rintro ((he | ⟨r, hr, hc⟩) | ⟨g2, hg2, hrest⟩)
      · exact .inl he
      · exact .inr ⟨g, .inl rfl, r, hr, hc⟩
      · exact .inr ⟨g2, .inr hg2, hrest⟩
    · rintro (he | ⟨g2, (rfl | hg2), hrest⟩)
      · exact .inl (.inl he)
      · exact .inl (.inr hrest)
      · exact .inr ⟨g2, hg2, hrest⟩

lemma nodup_addEdge (graph : List (String × List String)) (g r : String)
    (h : ∀ e ∈ graph, e.2.Nodup) : ∀ e ∈ addEdge graph g r, e.2.Nodup := by
  intro e he
  cases hl : lookupAssoc graph g with
  | none =>
    simp only [addEdge, hl] at he
    rcases mem_setKey _ _ _ e he with hin | rfl
    · exact h e hin
    · exact List.nodup_singleton r
  | some ns =>
    by_cases hr : r ∈ ns
    · simp only [addEdge, hl, if_pos hr] at he
      exact h e he
    · simp only [addEdge, hl, if_neg hr] at he
      rcases mem_setKey _ _ _ e he with hin | rfl
      · exact h e hin
      · have hns : ns.Nodup := h (g, ns) (lookupAssoc_mem _ _ _ hl)
        have h2 := nodup_addKey ns r hns
        rwa [addKey, if_neg hr] at h2

lemma nodup_foldl_stepRec (g : MaterialsRow) (recs : List MaterialsRow)
    (graph : List (String × List String)) (h : ∀ e ∈ graph, e.2.Nodup) :
    ∀ e ∈ recs.foldl (stepRec g) graph, e.2.Nodup := by
  induction recs generalizing graph with
  | nil => exact h
  | cons r rest ih =>
    rw [List.foldl_cons]
    refine ih _ ?_
    by_cases h1 : norm g.waste_type_name = norm r.raw_material_name
    · by_cases h2 : labelOf g = labelOf r
      · simpa [stepRec, h1, h2] using h
      · intro e he
        rw [stepRec, if_pos h1, if_neg h2] at he
        exact nodup_addEdge _ _ _ h e he
    · simpa [stepRec, h1] using h

lemma nodup_buildGraph (materials : List MaterialsRow) :
    ∀ e ∈ buildGraph materials, e.2.Nodup := by
  rw [buildGraph]
  generalize materialsGens materials = gens
  generalize materialsRecs materials = recs
  suffices hgen : ∀ (graph : List (String × List String)), (∀ e ∈ graph, e.2.Nodup) →
      ∀ e ∈ gens.foldl (stepGen recs) graph, e.2.Nodup by
    exact hgen [] (by simp)
  induction gens with
  | nil => intro graph h; simpa using h
  | cons g grest ih =>
    intro graph h
    rw [List.foldl_cons]
    exact ih _ (nodup_foldl_stepRec g recs graph h)

/-- The sequence of receiver labels the inner loop attempts to attach to
generator row `g`, in `recs` traversal order: material matches that are not
self-loops by display label. -/
def recNeighbors (g : MaterialsRow) (recs : List MaterialsRow) : List String :=
  recs.filterMap (fun r =>
    if norm g.waste_type_name = norm r.raw_material_name ∧ labelOf g ≠ labelOf r
    then some (labelOf r) else none)

/-- The full sequence of receiver labels attempted for generator label `G`,
in traversal order: outer loop over the generator-filtered rows labelled
`G`, inner loop over the receiver-filtered rows. -/
def traversalNeighbors (materials : List MaterialsRow) (G : String) : List String :=
  ((materialsGens materials).filter (fun g => decide (labelOf g = G))).flatMap
    (fun g => recNeighbors g (materialsRecs materials))

/-- The evolution of one adjacency entry under a sequence of attempted
neighbor insertions: the entry is created as a one-element array at the
first insertion and extended by first-occurrence append (`addKey`)
afterwards. -/
def applyEvents : Option (List String) → List String → Option (List String)
  | old, [] => old
  | old, r :: evs => applyEvents (some (addKey (old.getD []) r)) evs

lemma applyEvents_some (acc evs) :
    applyEvents (some acc) evs = some (evs.foldl addKey acc) := by
  induction evs generalizing acc with
  | nil => rfl
  | cons r rest ih => simp [applyEvents, List.foldl_cons, ih]

lemma applyEvents_append (old : Option (List String)) (a b : List String) :
    applyEvents old (a ++ b) = applyEvents (applyEvents old a) b := by
  induction a generalizing old with
  | nil => rfl
  | cons r rest ih => simp [applyEvents, ih]

lemma applyEvents_none (evs : List String) :
    applyEvents none evs =
      if evs = [] then none else some (evs.foldl addKey []) := by
  cases evs with
  | nil => rfl
  | cons r rest => simp [applyEvents, applyEvents_some]

lemma lookupAssoc_addEdge (graph : List (String × List String)) (g r G : String) :
    lookupAssoc (addEdge graph g r) G =
      if G = g then some (addKey ((lookupAssoc graph g).getD []) r)
      else lookupAssoc graph G := by
  by_cases hG : G = g
  · subst hG
    cases hl : lookupAssoc graph G with
    | none =>
      simp only [addEdge, hl, if_pos rfl]
      rw [lookupAssoc_setKey_self]
      simp [addKey]
    | some ns =>
      by_cases hr : r ∈ ns
      · simp only [addEdge, hl, if_pos hr]
        simp [hl, addKey, hr]
      · simp only [addEdge, hl, if_neg hr, if_pos rfl]
        rw [lookupAssoc_setKey_self]
        simp [addKey, hr]
  · rw [if_neg hG]
    cases hl : lookupAssoc graph g with
    | none =>
      simp only [addEdge, hl]
      exact lookupAssoc_setKey_ne _ _ _ _ hG
    | some ns =>
      by_cases hr : r ∈ ns
      · simp only [addEdge, hl, if_pos hr]
      · simp only [addEdge, hl, if_neg hr]
        exact lookupAssoc_setKey_ne _ _ _ _ hG

lemma lookupAssoc_foldl_stepRec (g : MaterialsRow) (recs : List MaterialsRow)
    (graph : List (String × List String)) (G : String) :
    lookupAssoc (recs.foldl (stepRec g) graph) G =
      if G = labelOf g then applyEvents (lookupAssoc graph G) (recNeighbors g recs)
      else lookupAssoc graph G := by
  induction recs generalizing graph with
  | nil =>
    by_cases hG : G = labelOf g <;> simp [recNeighbors, applyEvents, hG]
  | cons r rest ih =>
    rw [List.foldl_cons, ih]
    by_cases h1 : norm g.waste_type_name = norm r.raw_material_name
    · by_cases h2 : labelOf g = labelOf r
      · rw [stepRec, if_pos h1, if_pos h2]
        have hev : recNeighbors g (r :: rest) = recNeighbors g rest := by
          simp [recNeighbors, List.filterMap_cons, h1, h2]
        rw [hev]
      · rw [stepRec, if_pos h1, if_neg h2]
        have hev : recNeighbors g (r :: rest) = labelOf r :: recNeighbors g rest := by
          simp [recNeighbors, List.filterMap_cons, h1, h2]
        rw [hev]
        by_cases hG : G = labelOf g
        · rw [if_pos hG, if_pos hG, lookupAssoc_addEdge, hG, if_pos rfl]
          rfl
        · rw [if_neg hG, if_neg hG, lookupAssoc_addEdge, if_neg hG]
    · rw [stepRec, if_neg h1]
      have hev : recNeighbors g (r :: rest) = recNeighbors g rest := by
        simp [recNeighbors, List.filterMap_cons, h1]
      rw [hev]

lemma lookupAssoc_foldl_stepGen (gens recs : List MaterialsRow)
    (graph : List (String × List String)) (G : String) :
    lookupAssoc (gens.foldl (stepGen recs) graph) G =
      applyEvents (lookupAssoc graph G)
        ((gens.filter (fun g => decide (labelOf g = G))).flatMap
          (fun g => recNeighbors g recs)) := by
  induction gens generalizing graph with
  | nil => rfl
  | cons g grest ih =>
    rw [List.foldl_cons, ih]
    have hstep : lookupAssoc (stepGen recs graph g) G =
        if G = labelOf g then applyEvents (lookupAssoc graph G) (recNeighbors g recs)
        else lookupAssoc graph G := by
      rw [stepGen]
      exact lookupAssoc_foldl_stepRec g recs graph G
    by_cases hG : G = labelOf g
    · have hpg : decide (labelOf g = G) = true := by simp [hG]
      rw [hstep, if_pos hG, List.filter_cons, if_pos hpg, List.flatMap_cons,
        applyEvents_append]
    · have hpg : ¬ (decide (labelOf g = G) = true) := by
        simp only [decide_eq_true_eq]
        exact fun h => hG h.symm
      rw [hstep, if_neg hG, List.filter_cons, if_neg hpg]

lemma lookupAssoc_buildGraph (materials : List MaterialsRow) (G : String) :
    lookupAssoc (buildGraph materials) G =
      if traversalNeighbors materials G = [] then none
      else some ((traversalNeighbors materials G).foldl addKey []) := by
  rw [buildGraph, lookupAssoc_foldl_stepGen, traversalNeighbors]
  exact applyEvents_none _

/-- The generator row of the worked example: factory "A" outputs
"Fly Ash". -/
def demoGenRow : MaterialsRow :=
  { factory_id := 1, factory_name := some "A", role := some "Waste Generator",
    waste_type_name := some "Fly Ash", raw_material_name := none }

/-- The receiver row of the worked example: factory "B" needs "fly ash". -/
def demoRecRow : MaterialsRow :=
  { factory_id := 2, factory_name := some "B", role := some "Receiver",
    waste_type_name := none, raw_material_name := some "fly ash" }

/-- Factory "A" as a generator of "Fly Ash" (self-loop example). -/
def selfGenRow : MaterialsRow :=
  { factory_id := 1, factory_name := some "A", role := some "Waste Generator",
    waste_type_name := some "Fly Ash", raw_material_name := none }

/-- Factory "A" as a receiver of "fly ash" (self-loop example, same display
name). -/
def selfRecRow : MaterialsRow :=
  { factory_id := 3, factory_name := some "A", role := some "Receiver",
    waste_type_name := none, raw_material_name := some "fly ash" }

/-- C2: receiver label R is a neighbor of generator label G iff some
generator-filtered row labelled G and some receiver-filtered row labelled R
agree on the normalized material name and G ≠ R (self-loops suppressed by
display label); every neighbor list is duplicate-free; the neighbor list of
G is exactly the first-occurrence dedup (`addKey` fold, which keeps first
insertions in order) of the traversal-order sequence of attempted
neighbors, so neighbor lists are in first-insertion order; and the two
worked examples evaluate as specified. -/
theorem buildGraph_edges (materials : List MaterialsRow) (G R : String) :
    (edgeMem (buildGraph materials) G R ↔
      ∃ g ∈ materials, ∃ r ∈ materials,
        isGeneratorRow g = true ∧ isReceiverRow r = true ∧
        norm g.waste_type_name = norm r.raw_material_name ∧
        labelOf g = G ∧ labelOf r = R ∧ G ≠ R)
    ∧ (∀ e ∈ buildGraph materials, e.2.Nodup)
    ∧ (lookupAssoc (buildGraph materials) G =
        if traversalNeighbors materials G = [] then none
        else some ((traversalNeighbors materials G).foldl addKey []))
    ∧ buildGraph [demoGenRow, demoRecRow] = [("A", ["B"])]
    ∧ buildGraph [selfGenRow, selfRecRow] = [] := by
  refine ⟨?_, nodup_buildGraph materials, lookupAssoc_buildGraph materials G,
    by decide, by decide⟩
  rw [buildGraph, edgeMem_foldl_stepGen]
  constructor
  · rintro (⟨ns, hns, -⟩ | ⟨g, hg, r, hr, hmat, hne, rfl, rfl⟩)
    · simp [lookupAssoc] at hns
    · rw [materialsGens, List.mem_filter] at hg
      rw [materialsRecs, List.mem_filter] at hr
      exact ⟨g, hg.1, r, hr.1, hg.2, hr.2, hmat, rfl, rfl, hne⟩
  · rintro ⟨g, hg, r, hr, hgen, hrec, hmat, rfl, rfl, hne⟩
    exact .inr ⟨g, List.mem_filter.mpr ⟨hg, hgen⟩,
      r, List.mem_filter.mpr ⟨hr, hrec⟩, hmat, hne, rfl, rfl⟩

theorem buildGraph_edges_witness :
    edgeMem (buildGraph [demoGenRow, demoRecRow]) "A" "B" :=
  ((buildGraph_edges [demoGenRow, demoRecRow] "A" "B").1).mpr
    ⟨demoGenRow, by decide, demoRecRow, by decide, by decide, by decide,
     by decide, by decide, by decide, by decide⟩

end Portal
